import Mathlib

/-!
Verification of the LC-Report-Downloader synchronization engine.

The Python source (`MVC.py`, `gui.py`) is shallowly embedded below.
Library calls (`requests`, `json`) are modelled as explicit oracle
parameters; everything written by the repository itself (HMAC signing,
URL building, date filtering, dedup scanning, download loops) is
translated function by function.
-/

set_option maxRecDepth 2000

namespace LCReport

/-! ## Byte-level string utilities (UTF-8, percent-encoding) -/

/-- UTF-8 encoding of one code point. -/
def utf8EncodeCharL (c : Char) : List Nat :=
  let n := c.toNat
  if n < 128 then [n]
  else if n < 2048 then [192 + n / 64, 128 + n % 64]
  else if n < 65536 then [224 + n / 4096, 128 + n / 64 % 64, 128 + n % 64]
  else [240 + n / 262144, 128 + n / 4096 % 64, 128 + n / 64 % 64, 128 + n % 64]

/-- UTF-8 bytes of a string (`str.encode("utf-8")`), as natural numbers
(each `< 256`). -/
def utf8Bytes (s : String) : List Nat := (s.data.map utf8EncodeCharL).flatten

/-- ASCII lower-casing, the effect of `str.lower()` on the ASCII-only
strings it is applied to here. -/
def lowerChar (c : Char) : Char :=
  if 65 ≤ c.toNat && c.toNat ≤ 90 then Char.ofNat (c.toNat + 32) else c

def lowerStr (s : String) : String := ⟨s.data.map lowerChar⟩

/-- Upper-case hexadecimal digit, as produced by `urllib.parse.quote`. -/
def hexDigitUpper (n : Nat) : Char := if n < 10 then Char.ofNat (48 + n) else Char.ofNat (55 + n)

/-- Bytes `urllib.parse.quote` leaves unencoded when `safe=""`:
ASCII letters, digits, and `_.-~`. -/
def isAlwaysSafe (b : Nat) : Bool :=
  (65 ≤ b && b ≤ 90) || (97 ≤ b && b ≤ 122) || (48 ≤ b && b ≤ 57) ||
    b == 95 || b == 46 || b == 45 || b == 126

/-- The `%XX` escape for one byte. -/
def percentByte (b : Nat) : List Char := ['%', hexDigitUpper (b / 16), hexDigitUpper (b % 16)]

/-- `urllib.parse.quote(s, safe="")`: every byte of the UTF-8 encoding that is
not unreserved becomes `%XX` with upper-case hex. -/
def quoteAll (s : String) : String :=
  ⟨((utf8Bytes s).map (fun b => if isAlwaysSafe b then [Char.ofNat b] else percentByte b)).flatten⟩

/-- One byte of `urllib.parse.quote_plus(s)`: space becomes `+`,
unreserved bytes stay, everything else becomes `%XX`. -/
def quotePlusByte (b : Nat) : List Char :=
  if b == 32 then ['+'] else if isAlwaysSafe b then [Char.ofNat b] else percentByte b

/-- `urllib.parse.quote_plus(s)` (the encoder `urlencode` applies to
each key and value). -/
def quotePlus (s : String) : String :=
  ⟨((utf8Bytes s).map quotePlusByte).flatten⟩

/-! ## Base64 (`base64.b64encode` / `base64.b64decode`) -/

def b64Alphabet : List Char :=
  "ABCDEFGHIJKLMNOPQRSTUVWXYZabcdefghijklmnopqrstuvwxyz0123456789+/".data

def b64Char (n : Nat) : Char := b64Alphabet.getD n 'A'

def b64ValAux : List Char → Nat → Char → Option Nat
  | [], _, _ => none
  | a :: as, i, c => if a = c then some i else b64ValAux as (i + 1) c

/-- Position of a character in the base64 alphabet. -/
def b64Val (c : Char) : Option Nat := b64ValAux b64Alphabet 0 c

def b64EncodeGroups : List Nat → List Char
  | [] => []
  | [a] => [b64Char (a / 4), b64Char (a % 4 * 16), '=', '=']
  | [a, b] => [b64Char (a / 4), b64Char (a % 4 * 16 + b / 16), b64Char (b % 16 * 4), '=']
  | a :: b :: c :: rest =>
      b64Char (a / 4) :: b64Char (a % 4 * 16 + b / 16) ::
        b64Char (b % 16 * 4 + c / 64) :: b64Char (c % 64) :: b64EncodeGroups rest

/-- `base64.b64encode` on raw bytes, producing the padded ASCII form. -/
def b64encode (bs : List Nat) : String := ⟨b64EncodeGroups bs⟩

def b64DecodeGroups : List Char → Option (List Nat)
  | [] => some []
  | a :: b :: c :: d :: rest =>
      match b64Val a, b64Val b with
      | some va, some vb =>
        if c = '=' then
          if d = '=' && rest.isEmpty then some [va * 4 + vb / 16] else none
        else
          match b64Val c with
          | some vc =>
            if d = '=' then
              if rest.isEmpty then some [va * 4 + vb / 16, vb % 16 * 16 + vc / 4] else none
            else
              match b64Val d with
              | some vd =>
                (b64DecodeGroups rest).map
                  (fun tail => (va * 4 + vb / 16) :: (vb % 16 * 16 + vc / 4) :: (vc % 4 * 64 + vd) :: tail)
              | none => none
          | none => none
      | _, _ => none
  | _ => none

/-- `base64.b64decode` with its default lenient mode: characters outside the
alphabet (other than `=` padding) are discarded, then the remaining length
must be a multiple of four with padding only at the end. -/
def b64decode (s : String) : Option (List Nat) :=
  b64DecodeGroups (s.data.filter (fun c => (b64Val c).isSome || c = '='))

/-! ## SHA-256 and HMAC-SHA256 (`hashlib` / `hmac`), FIPS 180-4 over `Nat` -/

def pow32 : Nat := 4294967296

def rotr32 (k x : Nat) : Nat := x / 2 ^ k + x % 2 ^ k * 2 ^ (32 - k)

def shr32 (k x : Nat) : Nat := x / 2 ^ k

def not32 (x : Nat) : Nat := Nat.xor x 4294967295

def bsig0 (x : Nat) : Nat := Nat.xor (Nat.xor (rotr32 2 x) (rotr32 13 x)) (rotr32 22 x)

def bsig1 (x : Nat) : Nat := Nat.xor (Nat.xor (rotr32 6 x) (rotr32 11 x)) (rotr32 25 x)

def ssig0 (x : Nat) : Nat := Nat.xor (Nat.xor (rotr32 7 x) (rotr32 18 x)) (shr32 3 x)

def ssig1 (x : Nat) : Nat := Nat.xor (Nat.xor (rotr32 17 x) (rotr32 19 x)) (shr32 10 x)

def chF (x y z : Nat) : Nat := Nat.xor (Nat.land x y) (Nat.land (not32 x) z)

def majF (x y z : Nat) : Nat := Nat.xor (Nat.xor (Nat.land x y) (Nat.land x z)) (Nat.land y z)

def sha256K : List Nat :=
  [1116352408, 1899447441, 3049323471, 3921009573, 961987163,
   1508970993, 2453635748, 2870763221, 3624381080, 310598401,
   607225278, 1426881987, 1925078388, 2162078206, 2614888103,
   3248222580, 3835390401, 4022224774, 264347078, 604807628,
   770255983, 1249150122, 1555081692, 1996064986, 2554220882,
   2821834349, 2952996808, 3210313671, 3336571891, 3584528711,
   113926993, 338241895, 666307205, 773529912, 1294757372,
   1396182291, 1695183700, 1986661051, 2177026350, 2456956037,
   2730485921, 2820302411, 3259730800, 3345764771, 3516065817,
   3600352804, 4094571909, 275423344, 430227734, 506948616,
   659060556, 883997877, 958139571, 1322822218, 1537002063,
   1747873779, 1955562222, 2024104815, 2227730452, 2361852424,
   2428436474, 2756734187, 3204031479, 3329325298]

def sha256H0 : List Nat :=
  [1779033703, 3144134277, 1013904242, 2773480762, 1359893119,
   2600822924, 528734635, 1541459225]

/-- Big-endian 8-byte encoding of a length in bits. -/
def be64 (n : Nat) : List Nat :=
  [n / 2 ^ 56 % 256, n / 2 ^ 48 % 256, n / 2 ^ 40 % 256, n / 2 ^ 32 % 256,
   n / 2 ^ 24 % 256, n / 2 ^ 16 % 256, n / 2 ^ 8 % 256, n % 256]

/-- SHA-256 message padding. -/
def sha256Pad (msg : List Nat) : List Nat :=
  msg ++ (128 :: List.replicate ((119 - msg.length % 64) % 64) 0) ++ be64 (8 * msg.length)

def bytesToWords : List Nat → List Nat
  | a :: b :: c :: d :: rest => (((a * 256 + b) * 256 + c) * 256 + d) :: bytesToWords rest
  | _ => []

def wordToBytes (w : Nat) : List Nat := [w / 2 ^ 24 % 256, w / 2 ^ 16 % 256, w / 2 ^ 8 % 256, w % 256]

def chunk64 : List Nat → List (List Nat)
  | [] => []
  | a :: l => (a :: l.take 63) :: chunk64 (l.drop 63)
termination_by l => l.length
decreasing_by
  simp only [List.length_cons, List.length_drop]
  omega

/-- Extend the 16 message-schedule words to 64. -/
def extendW : Nat → List Nat → List Nat
  | 0, w => w
  | n + 1, w =>
      let i := w.length
      extendW n (w ++ [(ssig1 (w.getD (i - 2) 0) + w.getD (i - 7) 0 +
        ssig0 (w.getD (i - 15) 0) + w.getD (i - 16) 0) % pow32])

def roundStep (s : Nat × Nat × Nat × Nat × Nat × Nat × Nat × Nat) (kw : Nat × Nat) :
    Nat × Nat × Nat × Nat × Nat × Nat × Nat × Nat :=
  match s, kw with
  | (a, b, c, d, e, f, g, h), (k, w) =>
    let t1 := (h + bsig1 e + chF e f g + k + w) % pow32
    let t2 := (bsig0 a + majF a b c) % pow32
    ((t1 + t2) % pow32, a, b, c, (d + t1) % pow32, e, f, g)

def compressBlock (hs : List Nat) (block : List Nat) : List Nat :=
  let w := extendW 48 (bytesToWords block)
  let init := (hs.getD 0 0, hs.getD 1 0, hs.getD 2 0, hs.getD 3 0,
               hs.getD 4 0, hs.getD 5 0, hs.getD 6 0, hs.getD 7 0)
  match (sha256K.zip w).foldl roundStep init with
  | (a, b, c, d, e, f, g, h) =>
    [(hs.getD 0 0 + a) % pow32, (hs.getD 1 0 + b) % pow32, (hs.getD 2 0 + c) % pow32,
     (hs.getD 3 0 + d) % pow32, (hs.getD 4 0 + e) % pow32, (hs.getD 5 0 + f) % pow32,
     (hs.getD 6 0 + g) % pow32, (hs.getD 7 0 + h) % pow32]

/-- `hashlib.sha256(msg).digest()` as a list of bytes. -/
def sha256 (msg : List Nat) : List Nat :=
  (((chunk64 (sha256Pad msg)).foldl compressBlock sha256H0).map wordToBytes).flatten

/-- `hmac.new(key, msg, hashlib.sha256).digest()` (RFC 2104, block size 64). -/
def hmacSha256 (key msg : List Nat) : List Nat :=
  let k0 := if 64 < key.length then sha256 key else key
  let kp := k0 ++ List.replicate (64 - k0.length) 0
  sha256 (kp.map (fun b => Nat.xor b 92) ++ sha256 (kp.map (fun b => Nat.xor b 54) ++ msg))

/-! ## The Signer (`MVC.generate_hmac_header`)

`os.getenv` results are passed in as `Option String` (absent variable =
`none`); the nonce and timestamp generated during the call are passed in
explicitly. A Python exception is an `Except.error`. -/

/-- Python truthiness test `not s` for an optional string. -/
def pyBlank : Option String → Bool
  | none => true
  | some s => s == ""

/-- `MVC.generate_hmac_header(http_method, request_url)` with the
environment (`HMAC_USER`, `HMAC_KEY`) and the generated nonce/timestamp
made explicit. -/
def generate_hmac_header (hmacUser hmacKey : Option String) (nonce timestamp : String)
    (httpMethod requestUrl : String) : Except String String :=
  if pyBlank hmacUser || pyBlank hmacKey then
    .error "HMAC_USER and HMAC_KEY environment variables must be set"
  else
    let user := hmacUser.getD ""
    let encodedUrl := lowerStr (quoteAll requestUrl)
    let rawString := user ++ httpMethod ++ encodedUrl ++ timestamp ++ nonce
    match b64decode (hmacKey.getD "") with
    | none => .error "binascii.Error"
    | some keyBytes =>
        .ok ("amx " ++ user ++ ":" ++ b64encode (hmacSha256 keyBytes (utf8Bytes rawString)) ++
          ":" ++ nonce ++ ":" ++ timestamp)

/-! ## Request-URL construction for the catalog fetch -/

def REPORT_URL_BASE : String := "https://portalapi.lcegateway.com/GetReportBlobs"

/-- `MVC.download_reports`: `f"{REPORT_URL_BASE}?userName={username}&fileName={file_name}"`
with `file_name = "all"` — raw string interpolation, no encoding. -/
def mvc_full_url (username : String) : String :=
  REPORT_URL_BASE ++ "?userName=" ++ username ++ "&fileName=" ++ "all"

/-- `urllib.parse.urlencode`: `&`-joined `quote_plus(k)=quote_plus(v)` pairs. -/
def urlencode : List (String × String) → String
  | [] => ""
  | [p] => quotePlus p.1 ++ "=" ++ quotePlus p.2
  | p :: rest => quotePlus p.1 ++ "=" ++ quotePlus p.2 ++ "&" ++ urlencode rest

/-- `gui.load_reports`: `f"{REPORT_URL_BASE}?{query_params}"` where
`query_params = urlencode({"userName": username, "fileName": "all"})`. -/
def gui_full_url (username : String) : String :=
  REPORT_URL_BASE ++ "?" ++ urlencode [("userName", username), ("fileName", "all")]

/-! ## JSON values

The payloads handled by the code after `json` parsing. The parses
themselves (`response.json()`, `json.loads`) are supplied as oracles,
since they are library calls; the repository's control flow around them
is what is embedded. -/

inductive Json where
  | null
  | bool (b : Bool)
  | num (n : Int)
  | str (s : String)
  | arr (elems : List Json)
  | obj (fields : List (String × Json))

/-- `dict.get(k)` on a parsed JSON object; `none` for a missing key or a
non-object. -/
def Json.getField : Json → String → Option Json
  | .obj fields, k => fields.lookup k
  | _, _ => none

/-- Python truthiness `not x` for an optional JSON value
(`None`, `False`, `0`, `""`, `[]`, `{}` are falsy). -/
def pyFalsyJ : Option Json → Bool
  | none => true
  | some .null => true
  | some (.bool b) => !b
  | some (.num n) => n == 0
  | some (.str s) => s == ""
  | some (.arr l) => l.isEmpty
  | some (.obj l) => l.isEmpty

/-! ## The Date Filter (`gui.load_reports`, lines 282-294) -/

/-- Python string `<=`: lexicographic comparison of code points. -/
def pyStrLeL : List Char → List Char → Bool
  | [], _ => true
  | _ :: _, [] => false
  | a :: as, b :: bs =>
      if a.toNat < b.toNat then true
      else if b.toNat < a.toNat then false
      else pyStrLeL as bs

def pyStrLe (s t : String) : Bool := pyStrLeL s.data t.data

/-- Code-point-level `str.endswith(suffix)`. -/
def listPre : List Char → List Char → Bool
  | [], _ => true
  | _ :: _, [] => false
  | a :: as, b :: bs => a == b && listPre as bs

def strEndsWith (s suffix : String) : Bool := listPre suffix.data.reverse s.data.reverse

/-- `c in s` for a single character. -/
def strContainsChar (s : String) (c : Char) : Bool := s.data.contains c

/-- `s.rsplit(sep, 1)[-1]`: everything after the last occurrence of `sep`
(the whole string when `sep` does not occur). -/
def afterLastSep (sep : Char) (s : String) : String :=
  ⟨(s.data.reverse.takeWhile (fun c => !(c == sep))).reverse⟩

/-- `s.replace(pat, repl)` for a non-empty pattern: replace every
non-overlapping occurrence, left to right. The fuel argument (instantiated
with the string length, an upper bound on the number of steps) keeps the
recursion structural. -/
def replaceFuel (pat repl : List Char) : Nat → List Char → List Char
  | 0, cs => cs
  | _ + 1, [] => []
  | fuel + 1, a :: rest =>
      if listPre pat (a :: rest) && !pat.isEmpty then
        repl ++ replaceFuel pat repl fuel ((a :: rest).drop pat.length)
      else a :: replaceFuel pat repl fuel rest

def strReplace (s pat repl : String) : String :=
  ⟨replaceFuel pat.data repl.data s.data.length s.data⟩

/-- Python slicing `s[:n]` (by code points). -/
def strTake (s : String) (n : Nat) : String := ⟨s.data.take n⟩

/-- `extract_date_from_filename`: if the name ends in `.csv` and contains
`_`, take the part after the last `_` (`rsplit('_', 1)[-1]`) and delete
every occurrence of `.csv` (`.replace('.csv', '')`); otherwise `''`. -/
def extract_date_from_filename (name : String) : String :=
  if strEndsWith name ".csv" && strContainsChar name '_' then
    strReplace (afterLastSep '_' name) ".csv" ""
  else ""

/-- `in_range(date_str)`: `start_date <= date_str <= end_date`. -/
def in_range (startDate endDate dateStr : String) : Bool :=
  pyStrLe startDate dateStr && pyStrLe dateStr endDate

/-- `report.get("ReportName", "")` as a string; a present non-string
value is handled separately (it makes Python raise, see `guiEntryOK`). -/
def reportNameD (j : Json) : String :=
  match j.getField "ReportName" with
  | some (.str s) => s
  | _ => ""

/-- The list comprehension filtering `report_list` by the date embedded
in each report name. -/
def filtered_reports (startDate endDate : String) (entries : List Json) : List Json :=
  entries.filter (fun j => in_range startDate endDate (extract_date_from_filename (reportNameD j)))

/-- A fixed-width ISO `YYYY-MM-DD` date string. -/
def isDigitChar (c : Char) : Bool := 48 ≤ c.toNat && c.toNat ≤ 57

def isIsoDate (s : String) : Bool :=
  match s.data with
  | [a, b, c, d, e, f, g, h, i, j] =>
      isDigitChar a && isDigitChar b && isDigitChar c && isDigitChar d && e = '-' &&
        isDigitChar f && isDigitChar g && h = '-' && isDigitChar i && isDigitChar j
  | _ => false

/-! ## The Dedup Index (`MVC.get_previously_downloaded_files`) -/

/-- A filesystem entry: a leaf file or a directory with its children. -/
inductive FSEntry where
  | file (name : String)
  | dir (name : String) (children : List FSEntry)

def FSEntry.leafName : FSEntry → String
  | .file n => n
  | .dir n _ => n

/-- `get_previously_downloaded_files(base_dir, today_folder)`: for every
`subfolder` in `base_dir.iterdir()` that `is_dir()` and differs from the
current run's folder, add the leaf name of everything `subfolder.glob("*")`
yields (all direct children, directories included). -/
def get_previously_downloaded_files (rootChildren : List FSEntry) (todayName : String) :
    List String :=
  (rootChildren.map (fun e =>
    match e with
    | .dir n cs => if n ≠ todayName then cs.map FSEntry.leafName else []
    | .file _ => [])).flatten

/-! ## Network and disk models for the transfer paths

`requests.get` either raises (`.err`) or yields a complete response with
a status, a declared `content-length` and the body chunks that
`iter_content` will deliver. The local filesystem written to is an
association list from path to content. -/

inductive NetResult where
  | err (msg : String)
  | resp (status : Nat) (contentLength : Nat) (chunks : List (List Nat))

abbrev Disk := List (String × List Nat)

def diskWrite (path : String) (content : List Nat) (d : Disk) : Disk := (path, content) :: d

def diskHas (path : String) (d : Disk) : Bool := (d.lookup path).isSome

/-- The `on_progress` values produced by the chunk loop of
`gui._download_file`: empty chunks are skipped, and while
`total_size > 0` each written chunk reports `int(downloaded / total_size * 100)`. -/
def progressGo (total : Nat) : Nat → List (List Nat) → List Nat
  | _, [] => []
  | downloaded, c :: cs =>
      if c.isEmpty then progressGo total downloaded cs
      else
        let d := downloaded + c.length
        if 0 < total then d * 100 / total :: progressGo total d cs
        else progressGo total d cs

/-- All `on_progress` values of one `gui._download_file` call, including
the single final `progress_callback(100)` fired when `total_size == 0`. -/
def progressList (total : Nat) (chunks : List (List Nat)) : List Nat :=
  progressGo total 0 chunks ++ (if total = 0 then [100] else [])

inductive TransferOutcome where
  | succeeded
  | failed (msg : String)
deriving DecidableEq

/-- `gui._download_file(url, filepath, cb)`: GET, `raise_for_status`, then
stream the body to the file. Returns the bytes written and the progress
values reported; errors surface before the file is opened. -/
def download_file (net : String → NetResult) (url : String) :
    Except String (List Nat × List Nat) :=
  match net url with
  | .err m => .error m
  | .resp status cl chunks =>
      if 400 ≤ status then .error "HTTPError"
      else .ok (chunks.flatten, progressList cl chunks)

/-- `gui.download_report` (single-file path): download to
`os.path.join(save_dir, name)`; an exception leaves the disk unchanged
and is reported to the user. -/
def download_report (net : String → NetResult) (saveDir name url : String) (disk : Disk) :
    Except String Disk :=
  match download_file net url with
  | .ok (content, _) => .ok (diskWrite (saveDir ++ "/" ++ name) content disk)
  | .error m => .error m

/-- One iteration of the loop in `gui.download_all_reports`:
`report.get` both fields, `continue` when either is falsy, otherwise try
`_download_file` and record a failure string on exception. `none` means
the entry was skipped with no per-entry result. An `Except.error` is an
exception the loop itself does not catch (non-dict entry, non-string
name). -/
def gui_process_entry (net : String → NetResult) (saveDir : String) (j : Json) (disk : Disk) :
    Except String (Option TransferOutcome × Disk) :=
  match j with
  | .obj _ =>
      let name := j.getField "ReportName"
      let url := j.getField "ReportBlobUri"
      if pyFalsyJ name || pyFalsyJ url then .ok (none, disk)
      else
        match name with
        | some (.str n) =>
            match url with
            | some (.str u) =>
                match download_file net u with
                | .ok (content, _) =>
                    .ok (some .succeeded, diskWrite (saveDir ++ "/" ++ n) content disk)
                | .error m => .ok (some (.failed (n ++ ": " ++ m)), disk)
            | _ => .ok (some (.failed (n ++ ": " ++ "TypeError")), disk)
        | _ => .error "TypeError"
  | _ => .error "AttributeError"

/-- `gui.download_all_reports`: iterate the loaded reports, collecting the
per-entry outcomes, the `errors` list shown at the end, and the final
disk. -/
def gui_download_all (net : String → NetResult) (saveDir : String) (disk : Disk) :
    List Json → Except String (List TransferOutcome × List String × Disk)
  | [] => .ok ([], [], disk)
  | j :: rest =>
      match gui_process_entry net saveDir j disk with
      | .error e => .error e
      | .ok (o, disk') =>
          match gui_download_all net saveDir disk' rest with
          | .error e => .error e
          | .ok (os, errs, dfin) =>
              match o with
              | none => .ok (os, errs, dfin)
              | some .succeeded => .ok (.succeeded :: os, errs, dfin)
              | some (.failed m) => .ok (.failed m :: os, m :: errs, dfin)

/-! ## The MVC batch path (`MVC.download_reports`) -/

inductive MvcOutcomeE where
  | skippedBlank
  | skippedDedup
  | downloaded
  | failed (msg : String)
deriving DecidableEq

/-- One iteration of the loop in `MVC.download_reports`: falsy name/url →
`continue`; name in the dedup set → count as skipped; otherwise GET the
blob and write `r.content` to `BASE_DIR / name` only after
`raise_for_status` passed, catching any exception as a failure. An
`Except.error` is an exception raised outside the per-entry `try`
(non-dict entry, or `BASE_DIR / name` with a non-string name). -/
def mvc_process_entry (prev : List String) (net : String → NetResult) (baseDir : String)
    (j : Json) (disk : Disk) : Except String (MvcOutcomeE × Disk) :=
  match j with
  | .obj _ =>
      let name := j.getField "ReportName"
      let url := j.getField "ReportBlobUri"
      if pyFalsyJ name || pyFalsyJ url then .ok (.skippedBlank, disk)
      else
        match name with
        | some (.str n) =>
            if prev.contains n then .ok (.skippedDedup, disk)
            else
              match url with
              | some (.str u) =>
                  match net u with
                  | .err m => .ok (.failed m, disk)
                  | .resp status _ chunks =>
                      if 400 ≤ status then .ok (.failed "HTTPError", disk)
                      else .ok (.downloaded, diskWrite (baseDir ++ "/" ++ n) chunks.flatten disk)
              | _ => .ok (.failed "TypeError", disk)
        | _ => .error "TypeError"
  | _ => .error "AttributeError"

/-- The whole download loop of `MVC.download_reports`, returning the
`downloaded` and `skipped` counters, the per-entry outcome trace, and the
final disk. -/
def mvc_loop (prev : List String) (net : String → NetResult) (baseDir : String) (disk : Disk) :
    List Json → Except String (Nat × Nat × List MvcOutcomeE × Disk)
  | [] => .ok (0, 0, [], disk)
  | j :: rest =>
      match mvc_process_entry prev net baseDir j disk with
      | .error e => .error e
      | .ok (o, disk') =>
          match mvc_loop prev net baseDir disk' rest with
          | .error e => .error e
          | .ok (dls, skips, tr, dfin) =>
              match o with
              | .downloaded => .ok (dls + 1, skips, o :: tr, dfin)
              | .skippedDedup => .ok (dls, skips + 1, o :: tr, dfin)
              | _ => .ok (dls, skips, o :: tr, dfin)

/-- What `MVC.download_reports` does after the catalog GET returned. -/
inductive MvcResult where
  | parseFailure (snippet : String)
  | notAList
  | completed (downloadedCount skippedCount : Nat) (trace : List MvcOutcomeE)

/-- `MVC.download_reports` response handling: `raise_for_status` (an
uncaught exception for a 4xx/5xx status), then the double parse inside
`try` — on failure it prints `response.text[:500]` and returns `None`
(modelled as `.ok (.parseFailure …)`, a normal return carrying the
printed snippet) — then the `isinstance(report_list, list)` check, the
dedup scan and the download loop. `outer` is `response.json()`; `inner`
is `json.loads`, applied only when the outer value is a string
(`json.loads` of a non-string raises `TypeError`, caught by the same
`except`). -/
def mvc_download_reports (status : Nat) (text : String)
    (outer : Except String Json) (inner : String → Except String Json)
    (rootChildren : List FSEntry) (todayName : String)
    (net : String → NetResult) (baseDir : String) (disk : Disk) :
    Except String (MvcResult × Disk) :=
  if 400 ≤ status then .error "HTTPError"
  else
    match outer with
    | .error _ => .ok (.parseFailure (strTake text 500), disk)
    | .ok v =>
        match v with
        | .str s =>
            match inner s with
            | .error _ => .ok (.parseFailure (strTake text 500), disk)
            | .ok parsed =>
                match parsed with
                | .arr reports =>
                    let prev := get_previously_downloaded_files rootChildren todayName
                    match mvc_loop prev net baseDir disk reports with
                    | .error e => .error e
                    | .ok (dls, skips, tr, dfin) => .ok (.completed dls skips tr, dfin)
                | _ => .ok (.notAList, disk)
        | _ => .ok (.parseFailure (strTake text 500), disk)

/-! ## The GUI catalog fetch (`gui.load_reports`) -/

/-- `json.loads(response.json())` followed by the
`isinstance(report_list, list)` check; every failure is an exception the
surrounding handler reports. -/
def gui_parse_catalog (outer : Except String Json) (inner : String → Except String Json) :
    Except String (List Json) :=
  match outer with
  | .error e => .error e
  | .ok (.str s) =>
      match inner s with
      | .error e => .error e
      | .ok (.arr l) => .ok l
      | .ok _ => .error "Invalid response format"
  | .ok _ => .error "TypeError"

/-- An entry the GUI filter can process without raising: a dict whose
`ReportName`, if present, is a string. -/
def guiEntryOK (j : Json) : Bool :=
  match j with
  | .obj _ =>
      match j.getField "ReportName" with
      | none => true
      | some (.str _) => true
      | some _ => false
  | _ => false

/-- The catalog part of `gui.load_reports`: status check, double parse,
list check, then the date filter over the report names. Entries that
would make `report.get(...)._` raise are modelled as the exception the
surrounding handler reports. -/
def gui_load_reports (status : Nat) (outer : Except String Json)
    (inner : String → Except String Json) (startDate endDate : String) :
    Except String (List Json) :=
  if 400 ≤ status then .error "HTTPError"
  else
    match gui_parse_catalog outer inner with
    | .error e => .error e
    | .ok l =>
        if l.all guiEntryOK then .ok (filtered_reports startDate endDate l)
        else .error "AttributeError"

/-! ## Derived views used by the claims -/

/-- Modelled from the spec (§4.4): the set the claim describes — only the
leaf names of the direct child *files* of each sibling directory. Used to
compare the claimed contract with what the code computes. -/
def spec_previously_downloaded (rootChildren : List FSEntry) (todayName : String) :
    List String :=
  (rootChildren.map (fun e =>
    match e with
    | .dir n cs =>
        if n ≠ todayName then
          cs.filterMap (fun c =>
            match c with
            | .file m => some m
            | .dir _ _ => none)
        else []
    | .file _ => [])).flatten

/-- A catalog entry whose fields are what the external contract (§6)
documents: a dict whose `ReportName` and `ReportBlobUri`, when present,
are strings. -/
def entryWF (j : Json) : Bool :=
  match j with
  | .obj _ =>
      (match j.getField "ReportName" with
       | none => true
       | some (.str _) => true
       | some _ => false) &&
      (match j.getField "ReportBlobUri" with
       | none => true
       | some (.str _) => true
       | some _ => false)
  | _ => false

/-- An entry the loops skip without producing any result: name or URI
missing or empty. -/
def entryMalformed (j : Json) : Bool :=
  pyFalsyJ (j.getField "ReportName") || pyFalsyJ (j.getField "ReportBlobUri")

/-- The per-entry outcome the GUI batch loop records for a well-formed
entry; `none` when the entry is silently skipped. -/
def gui_entry_outcome (net : String → NetResult) (j : Json) : Option TransferOutcome :=
  match j.getField "ReportName", j.getField "ReportBlobUri" with
  | some (.str n), some (.str u) =>
      if n == "" || u == "" then none
      else
        match download_file net u with
        | .ok _ => some .succeeded
        | .error m => some (.failed (n ++ ": " ++ m))
  | _, _ => none

def TransferOutcome.failedMsg : TransferOutcome → Option String
  | .succeeded => none
  | .failed m => some m

/-- The outcome the MVC loop assigns to a well-formed entry. -/
def mvc_entry_class (prev : List String) (net : String → NetResult) (j : Json) : MvcOutcomeE :=
  if entryMalformed j then .skippedBlank
  else
    match j.getField "ReportName", j.getField "ReportBlobUri" with
    | some (.str n), some (.str u) =>
        if prev.contains n then .skippedDedup
        else
          match net u with
          | .err m => .failed m
          | .resp status _ _ => if 400 ≤ status then .failed "HTTPError" else .downloaded
    | _, _ => .skippedBlank

/-- The disk after the GUI batch loop processed one well-formed entry. -/
def gui_entry_disk (net : String → NetResult) (saveDir : String) (j : Json) (disk : Disk) :
    Disk :=
  match j.getField "ReportName", j.getField "ReportBlobUri" with
  | some (.str n), some (.str u) =>
      if n == "" || u == "" then disk
      else
        match download_file net u with
        | .ok (content, _) => diskWrite (saveDir ++ "/" ++ n) content disk
        | .error _ => disk
  | _, _ => disk

/-! ## Concrete fixtures used by witnesses and counterexamples -/

/-- A network where only `http://b` is unreachable; every other URL
yields a 200 response with one one-byte chunk. -/
def net3 : String → NetResult :=
  fun u => if u = "http://b" then .err "boom" else .resp 200 1 [[104]]

def entryA : Json :=
  .obj [("ReportName", .str "a_2024-01-01.csv"), ("ReportBlobUri", .str "http://a")]

def entryB : Json :=
  .obj [("ReportName", .str "b_2024-01-02.csv"), ("ReportBlobUri", .str "http://b")]

def entryC : Json :=
  .obj [("ReportName", .str "c_2024-01-03.csv"), ("ReportBlobUri", .str "http://c")]

/-- An entry with a well-formed dated name but no `ReportBlobUri`. -/
def entryNoUri : Json := .obj [("ReportName", .str "x_2024-01-01.csv")]

/-- A network where every URL succeeds with one one-byte chunk. -/
def netOk : String → NetResult := fun _ => .resp 200 1 [[104]]

/-- A character that may appear in a properly `urlencode`-encoded query
component: an unreserved character, `+`, or `%` (followed by hex digits,
which are themselves unreserved). -/
def allowedQueryChar (c : Char) : Bool := isAlwaysSafe c.toNat || c == '+' || c == '%'


/-! ## Helper lemmas -/

theorem pyStrLeL_nil_false {l : List Char} (h : l ≠ []) : pyStrLeL l [] = false := by
  cases l with
  | nil => exact absurd rfl h
  | cons a as => rfl

theorem isIsoDate_data_ne_nil {s : String} (h : isIsoDate s = true) : s.data ≠ [] := by
  intro hnil
  rw [isIsoDate, hnil] at h
  exact absurd h (by decide)

theorem pyStrLe_iso_empty_false {s : String} (h : isIsoDate s = true) :
    pyStrLe s "" = false := by
  rw [pyStrLe]
  exact pyStrLeL_nil_false (isIsoDate_data_ne_nil h)

/-! ## Claim theorems -/

/-- C1: with the HMAC user present and non-empty and the HMAC key present,
non-empty and base64-decodable to `kb`, the signer returns exactly
`"amx " ++ user ++ ":" ++ base64(HMAC-SHA256(kb, utf8(user ++ method ++
lowercase(percentEncodeAll(url)) ++ timestamp ++ nonce))) ++ ":" ++ nonce ++
":" ++ timestamp`: the URL is percent-encoded with every reserved character
encoded and only then lowercased, the method is used as given, and the
concatenation has no separators. -/
theorem C1_signer_formula (user key nonce ts method url : String) (kb : List Nat)
    (hu : user ≠ "") (hk : key ≠ "") (hkb : b64decode key = some kb) :
    generate_hmac_header (some user) (some key) nonce ts method url =
      .ok ("amx " ++ user ++ ":" ++
        b64encode (hmacSha256 kb
          (utf8Bytes (user ++ method ++ lowerStr (quoteAll url) ++ ts ++ nonce))) ++
        ":" ++ nonce ++ ":" ++ ts) := by
  simp [generate_hmac_header, pyBlank, hkb, hu, hk]

/-- C1 witness: the theorem applied at a concrete signing request. -/
theorem C1_signer_formula_witness :
    b64decode "AA==" = some [0] ∧
    generate_hmac_header (some "u") (some "AA==") "n" "1" "GET" "http://x" =
      .ok ("amx " ++ "u" ++ ":" ++
        b64encode (hmacSha256 [0]
          (utf8Bytes ("u" ++ "GET" ++ lowerStr (quoteAll "http://x") ++ "1" ++ "n"))) ++
        ":" ++ "n" ++ ":" ++ "1") :=
  ⟨by decide,
   C1_signer_formula "u" "AA==" "n" "1" "GET" "http://x" [0]
     (by decide) (by decide) (by decide)⟩

theorem in_range_extract_iff (startDate endDate nm : String)
    (hs : isIsoDate startDate = true) :
    in_range startDate endDate (extract_date_from_filename nm) = true ↔
      (strEndsWith nm ".csv" = true ∧ strContainsChar nm '_' = true ∧
        pyStrLe startDate (extract_date_from_filename nm) = true ∧
        pyStrLe (extract_date_from_filename nm) endDate = true) := by
  by_cases h : (strEndsWith nm ".csv" && strContainsChar nm '_') = true
  · rw [Bool.and_eq_true] at h
    simp [in_range, extract_date_from_filename, h.1, h.2]
  · have hext : extract_date_from_filename nm = "" := by
      rw [extract_date_from_filename, if_neg]
      simpa using h
    rw [Bool.and_eq_true, not_and_or] at h
    rcases h with h | h <;>
      simp [in_range, hext, pyStrLe_iso_empty_false hs, Bool.eq_false_iff.mpr h]

/-- C2: an entry passes the GUI date filter iff its name (`ReportName`,
defaulting to `""`) ends in `.csv`, contains `_`, and the extracted
DateKey lies between the two `YYYY-MM-DD` bounds inclusively under
Python's lexicographic string comparison; entries with no extractable
DateKey are dropped. Concretely, `report_2024-01-01.csv` is retained for
the range `["2024-01-01","2024-01-01"]` and `report_2023-12-31.csv` is
not. -/
theorem C2_date_filter (startDate endDate : String) (entries : List Json) (j : Json)
    (hs : isIsoDate startDate = true) (he : isIsoDate endDate = true) :
    (j ∈ filtered_reports startDate endDate entries ↔
      j ∈ entries ∧
        (strEndsWith (reportNameD j) ".csv" = true ∧ strContainsChar (reportNameD j) '_' = true ∧
          pyStrLe startDate (extract_date_from_filename (reportNameD j)) = true ∧
          pyStrLe (extract_date_from_filename (reportNameD j)) endDate = true)) ∧
    filtered_reports "2024-01-01" "2024-01-01"
        [Json.obj [("ReportName", Json.str "report_2024-01-01.csv")],
         Json.obj [("ReportName", Json.str "report_2023-12-31.csv")]] =
      [Json.obj [("ReportName", Json.str "report_2024-01-01.csv")]] := by
  refine ⟨?_, rfl⟩
  rw [filtered_reports, List.mem_filter]
  exact and_congr_right (fun _ => in_range_extract_iff startDate endDate (reportNameD j) hs)

/-- C2 witness: the theorem applied at a concrete range and catalog. -/
theorem C2_date_filter_witness :
    isIsoDate "2024-01-01" = true ∧ isIsoDate "2024-01-02" = true ∧
    ((Json.obj [("ReportName", Json.str "report_2024-01-01.csv")] ∈
        filtered_reports "2024-01-01" "2024-01-02"
          [Json.obj [("ReportName", Json.str "report_2024-01-01.csv")]] ↔
      Json.obj [("ReportName", Json.str "report_2024-01-01.csv")] ∈
          [Json.obj [("ReportName", Json.str "report_2024-01-01.csv")]] ∧
        (strEndsWith (reportNameD (Json.obj [("ReportName", Json.str "report_2024-01-01.csv")]))
            ".csv" = true ∧
          strContainsChar (reportNameD (Json.obj [("ReportName", Json.str "report_2024-01-01.csv")]))
            '_' = true ∧
          pyStrLe "2024-01-01"
            (extract_date_from_filename
              (reportNameD (Json.obj [("ReportName", Json.str "report_2024-01-01.csv")]))) =
            true ∧
          pyStrLe
            (extract_date_from_filename
              (reportNameD (Json.obj [("ReportName", Json.str "report_2024-01-01.csv")])))
            "2024-01-02" = true)) ∧
    filtered_reports "2024-01-01" "2024-01-01"
        [Json.obj [("ReportName", Json.str "report_2024-01-01.csv")],
         Json.obj [("ReportName", Json.str "report_2023-12-31.csv")]] =
      [Json.obj [("ReportName", Json.str "report_2024-01-01.csv")]]) :=
  ⟨by decide, by decide,
   C2_date_filter "2024-01-01" "2024-01-02"
     [Json.obj [("ReportName", Json.str "report_2024-01-01.csv")]]
     (Json.obj [("ReportName", Json.str "report_2024-01-01.csv")])
     (by decide) (by decide)⟩

/-- C3 counterexample: the claim says the scan collects the leaf names of
each sibling directory's direct child *files*. But the code's
`subfolder.glob("*")` yields every direct child, directories included: for
a root with one sibling directory `A` containing only a subdirectory `D`,
the code's set contains `"D"`, while the set of direct child file names
is empty. -/
theorem C3_dedup_scan_cex :
    "D" ∈ get_previously_downloaded_files [FSEntry.dir "A" [FSEntry.dir "D" []]] "B" ∧
    "D" ∉ spec_previously_downloaded [FSEntry.dir "A" [FSEntry.dir "D" []]] "B" := by
  decide

/-- C3 (amended): a name is in the result of
`get_previously_downloaded_files` iff some immediate subdirectory of the
root other than the exclude directory has a direct child — file or
directory — with that leaf name; nothing deeper than one level is
consulted and only names, never content, are compared. -/
theorem C3_dedup_scan (rootChildren : List FSEntry) (todayName nm : String) :
    nm ∈ get_previously_downloaded_files rootChildren todayName ↔
      ∃ n cs, FSEntry.dir n cs ∈ rootChildren ∧ n ≠ todayName ∧
        ∃ c ∈ cs, FSEntry.leafName c = nm := by
  induction rootChildren with
  | nil => simp [get_previously_downloaded_files]
  | cons e es ih =>
      rw [get_previously_downloaded_files] at ih ⊢
      rw [List.map_cons, List.flatten_cons, List.mem_append, ih]
      cases e with
      | file f =>
          dsimp only
          simp only [List.not_mem_nil, false_or]
          constructor
          · rintro ⟨n, cs, hmem, hne, hc⟩
            exact ⟨n, cs, List.mem_cons_of_mem _ hmem, hne, hc⟩
          · rintro ⟨n, cs, hmem, hne, hc⟩
            rcases List.mem_cons.mp hmem with h | h
            · cases h
            · exact ⟨n, cs, h, hne, hc⟩
      | dir n0 cs0 =>
          dsimp only
          by_cases hn0 : n0 = todayName
          · subst hn0
            rw [if_neg (by simp)]
            simp only [List.not_mem_nil, false_or]
            constructor
            · rintro ⟨n, cs, hmem, hne, hc⟩
              exact ⟨n, cs, List.mem_cons_of_mem _ hmem, hne, hc⟩
            · rintro ⟨n, cs, hmem, hne, hc⟩
              rcases List.mem_cons.mp hmem with h | h
              · injection h with h1 h2
                subst h1
                exact absurd rfl hne
              · exact ⟨n, cs, h, hne, hc⟩
          · rw [if_pos hn0]
            constructor
            · rintro (h | h)
              · rcases List.mem_map.mp h with ⟨c, hc, hcn⟩
                exact ⟨n0, cs0, List.mem_cons_self _ _, hn0, c, hc, hcn⟩
              · rcases h with ⟨n, cs, hmem, hne, hc⟩
                exact ⟨n, cs, List.mem_cons_of_mem _ hmem, hne, hc⟩
            · rintro ⟨n, cs, hmem, hne, hc⟩
              rcases List.mem_cons.mp hmem with h | h
              · injection h with h1 h2
                subst h1; subst h2
                rcases hc with ⟨c, hcmem, hcn⟩
                exact Or.inl (List.mem_map.mpr ⟨c, hcmem, hcn⟩)
              · exact Or.inr ⟨n, cs, h, hne, hc⟩

theorem gui_process_entry_wf (net : String → NetResult) (saveDir : String) (j : Json)
    (disk : Disk) (h : entryWF j = true) :
    gui_process_entry net saveDir j disk =
      .ok (gui_entry_outcome net j, gui_entry_disk net saveDir j disk) := by
  cases j with
  | obj fs =>
      rw [entryWF, Bool.and_eq_true] at h
      rcases hn : Json.getField (Json.obj fs) "ReportName" with _ | vn
      · simp [gui_process_entry, gui_entry_outcome, gui_entry_disk, hn, pyFalsyJ]
      · rw [hn] at h
        cases vn with
        | str n =>
            rcases hu : Json.getField (Json.obj fs) "ReportBlobUri" with _ | vu
            · simp [gui_process_entry, gui_entry_outcome, gui_entry_disk, hn, hu, pyFalsyJ]
            · rw [hu] at h
              cases vu with
              | str u =>
                  by_cases hnu : (n == "" || u == "") = true
                  · simp only [gui_process_entry, gui_entry_outcome, gui_entry_disk,
                      hn, hu, pyFalsyJ, hnu, if_pos]
                  · simp only [gui_process_entry, gui_entry_outcome, gui_entry_disk,
                      hn, hu, pyFalsyJ, hnu, if_neg, Bool.not_eq_true]
                    cases hd : download_file net u with
                    | ok r => cases r; rfl
                    | error m => rfl
              | null => exact absurd h.2 (by simp)
              | bool b => exact absurd h.2 (by simp)
              | num k => exact absurd h.2 (by simp)
              | arr l => exact absurd h.2 (by simp)
              | obj l => exact absurd h.2 (by simp)
        | null => exact absurd h.1 (by simp)
        | bool b => exact absurd h.1 (by simp)
        | num k => exact absurd h.1 (by simp)
        | arr l => exact absurd h.1 (by simp)
        | obj l => exact absurd h.1 (by simp)
  | null => exact absurd h (by simp [entryWF])
  | bool b => exact absurd h (by simp [entryWF])
  | num k => exact absurd h (by simp [entryWF])
  | str s => exact absurd h (by simp [entryWF])
  | arr l => exact absurd h (by simp [entryWF])

theorem gui_download_all_wf (net : String → NetResult) (saveDir : String)
    (entries : List Json) :
    ∀ disk : Disk, entries.all entryWF = true →
      ∃ dfin, gui_download_all net saveDir disk entries =
        .ok (entries.filterMap (gui_entry_outcome net),
          (entries.filterMap (gui_entry_outcome net)).filterMap TransferOutcome.failedMsg,
          dfin) := by
  induction entries with
  | nil => exact fun disk _ => ⟨disk, rfl⟩
  | cons j rest ih =>
      intro disk h
      rw [List.all_cons, Bool.and_eq_true] at h
      obtain ⟨dfin, hrest⟩ := ih (gui_entry_disk net saveDir j disk) h.2
      refine ⟨dfin, ?_⟩
      rw [gui_download_all, gui_process_entry_wf net saveDir j disk h.1]
      simp only []
      rw [hrest, List.filterMap_cons]
      cases ho : gui_entry_outcome net j with
      | none => rfl
      | some o =>
          cases o with
          | succeeded => simp [List.filterMap_cons, TransferOutcome.failedMsg]
          | failed m => simp [List.filterMap_cons, TransferOutcome.failedMsg]

/-- C4 counterexample: `download_all_reports` does not return one
`TransferResult` per requested entry. A requested entry whose
`ReportBlobUri` is missing is skipped by `continue` with no per-entry
result at all: for the one-entry catalog `[entryNoUri]` the loop
produces an empty outcome list (and an empty error list), not one
result. -/
theorem C4_batch_download_cex :
    gui_download_all net3 "dl" [] [entryNoUri] = .ok ([], [], []) := rfl

/-- C4 (amended): the GUI batch loop attempts every requested entry that
has both a name and a source URI, catches each per-entry failure as a
recorded error without aborting the remaining entries, and raises
nothing itself; it yields one outcome per such entry (entries missing
either field are silently skipped with no outcome), and the reported
error list is exactly the failure messages. For three complete entries
whose second has an unreachable URI the outcomes are (succeeded, failed,
succeeded), only the failure is reported, and entries one and three are
on disk afterwards. -/
theorem C4_batch_download (net : String → NetResult) (saveDir : String) (disk : Disk)
    (entries : List Json) (h : entries.all entryWF = true) :
    (∃ dfin, gui_download_all net saveDir disk entries =
        .ok (entries.filterMap (gui_entry_outcome net),
          (entries.filterMap (gui_entry_outcome net)).filterMap TransferOutcome.failedMsg,
          dfin)) ∧
    gui_download_all net3 "dl" [] [entryA, entryB, entryC] =
      .ok ([.succeeded, .failed "b_2024-01-02.csv: boom", .succeeded],
        ["b_2024-01-02.csv: boom"],
        [("dl/c_2024-01-03.csv", [104]), ("dl/a_2024-01-01.csv", [104])]) ∧
    diskHas "dl/a_2024-01-01.csv"
        [("dl/c_2024-01-03.csv", [104]), ("dl/a_2024-01-01.csv", [104])] = true ∧
    diskHas "dl/c_2024-01-03.csv"
        [("dl/c_2024-01-03.csv", [104]), ("dl/a_2024-01-01.csv", [104])] = true :=
  ⟨gui_download_all_wf net saveDir entries disk h, rfl, rfl, rfl⟩

/-- C4 witness: the amended theorem applied to the three-entry catalog. -/
theorem C4_batch_download_witness :
    [entryA, entryB, entryC].all entryWF = true ∧
    ((∃ dfin, gui_download_all net3 "dl" [] [entryA, entryB, entryC] =
        .ok ([entryA, entryB, entryC].filterMap (gui_entry_outcome net3),
          ([entryA, entryB, entryC].filterMap
            (gui_entry_outcome net3)).filterMap TransferOutcome.failedMsg,
          dfin)) ∧
      gui_download_all net3 "dl" [] [entryA, entryB, entryC] =
        .ok ([.succeeded, .failed "b_2024-01-02.csv: boom", .succeeded],
          ["b_2024-01-02.csv: boom"],
          [("dl/c_2024-01-03.csv", [104]), ("dl/a_2024-01-01.csv", [104])]) ∧
      diskHas "dl/a_2024-01-01.csv"
          [("dl/c_2024-01-03.csv", [104]), ("dl/a_2024-01-01.csv", [104])] = true ∧
      diskHas "dl/c_2024-01-03.csv"
          [("dl/c_2024-01-03.csv", [104]), ("dl/a_2024-01-01.csv", [104])] = true) :=
  ⟨by decide, C4_batch_download net3 "dl" [] [entryA, entryB, entryC] (by decide)⟩

/-- C5 counterexample: the claim says both the single and the batch
download paths exclude entries whose name is in the Dedup Index. The GUI
batch path never consults the index: with `a_2024-01-01.csv` present in a
sibling run folder (hence in the Dedup Index), `download_all_reports`
still downloads the entry, records it as succeeded — not skipped — and
writes the file. -/
theorem C5_dedup_skip_cex :
    "a_2024-01-01.csv" ∈ get_previously_downloaded_files
        [FSEntry.dir "2024-01-01" [FSEntry.file "a_2024-01-01.csv"]] "2024-01-02" ∧
    gui_download_all netOk "dl" [] [entryA] =
      .ok ([.succeeded], [], [("dl/a_2024-01-01.csv", [104])]) :=
  ⟨by decide, rfl⟩

/-- C5 (amended): only the MVC batch loop performs the dedup skip: an
entry with a present, non-empty name and URI whose name is in the
previously-downloaded set is resolved as `skippedDedup` before any
transfer, for every network whatsoever, with the disk unchanged, and the
`skipped` counter — not `downloaded` or a failure — accounts for it. The
GUI paths do not consult the set: the same entry is still attempted
there (its outcome is a real succeeded/failed result). -/
theorem C5_dedup_skip (prev : List String) (net : String → NetResult)
    (baseDir : String) (disk : Disk) (j : Json) (n u : String)
    (hn : j.getField "ReportName" = some (.str n))
    (hu : j.getField "ReportBlobUri" = some (.str u))
    (hne : n ≠ "") (hue : u ≠ "") (hmem : prev.contains n = true) :
    mvc_process_entry prev net baseDir j disk = .ok (.skippedDedup, disk) ∧
    mvc_loop prev net baseDir disk [j] = .ok (0, 1, [.skippedDedup], disk) ∧
    (gui_entry_outcome net j).isSome = true := by
  have hn' : (n == "") = false := beq_eq_false_iff_ne.mpr hne
  have hu' : (u == "") = false := beq_eq_false_iff_ne.mpr hue
  cases j with
  | obj fs =>
      have hproc : mvc_process_entry prev net baseDir (Json.obj fs) disk =
          .ok (.skippedDedup, disk) := by
        simp only [mvc_process_entry, hn, hu, pyFalsyJ, hn', hu', Bool.or_self,
          Bool.false_eq_true, if_false, hmem, if_true]
      refine ⟨hproc, ?_, ?_⟩
      · show (match mvc_process_entry prev net baseDir (Json.obj fs) disk with
          | .error e => .error e
          | .ok (o, disk') =>
              match mvc_loop prev net baseDir disk' [] with
              | .error e => .error e
              | .ok (dls, skips, tr, dfin) =>
                  match o with
                  | .downloaded => .ok (dls + 1, skips, o :: tr, dfin)
                  | .skippedDedup => .ok (dls, skips + 1, o :: tr, dfin)
                  | _ => .ok (dls, skips, o :: tr, dfin) :
          Except String (Nat × Nat × List MvcOutcomeE × Disk)) = .ok (0, 1, [.skippedDedup], disk)
        rw [hproc]
        rfl
      · simp only [gui_entry_outcome, hn, hu, hn', hu', Bool.or_self, Bool.false_eq_true,
          if_false]
        cases download_file net u with
        | ok r => rfl
        | error m => rfl
  | null => exact absurd hn (by simp [Json.getField])
  | bool b => exact absurd hn (by simp [Json.getField])
  | num k => exact absurd hn (by simp [Json.getField])
  | str s => exact absurd hn (by simp [Json.getField])
  | arr l => exact absurd hn (by simp [Json.getField])

/-- C5 witness: the amended theorem applied to a concrete dedup set,
network and entry. -/
theorem C5_dedup_skip_witness :
    entryA.getField "ReportName" = some (.str "a_2024-01-01.csv") ∧
    entryA.getField "ReportBlobUri" = some (.str "http://a") ∧
    "a_2024-01-01.csv" ≠ "" ∧ "http://a" ≠ "" ∧
    ["a_2024-01-01.csv"].contains "a_2024-01-01.csv" = true ∧
    (mvc_process_entry ["a_2024-01-01.csv"] netOk "base" entryA [] =
        .ok (.skippedDedup, []) ∧
      mvc_loop ["a_2024-01-01.csv"] netOk "base" [] [entryA] =
        .ok (0, 1, [.skippedDedup], []) ∧
      (gui_entry_outcome netOk entryA).isSome = true) :=
  ⟨rfl, rfl, by decide, by decide, by decide,
   C5_dedup_skip ["a_2024-01-01.csv"] netOk "base" [] entryA
     "a_2024-01-01.csv" "http://a" rfl rfl (by decide) (by decide) (by decide)⟩

theorem char_toNat_lt (c : Char) : c.toNat < 1114112 := by
  rcases c with ⟨val, valid⟩
  rcases valid with h | ⟨h1, h2⟩
  · exact Nat.lt_trans h (by decide)
  · exact h2

theorem quotePlusByte_allowed_range :
    ((List.range 256).all (fun b => (quotePlusByte b).all allowedQueryChar)) = true := by
  decide

theorem utf8EncodeCharL_lt (c : Char) : ∀ b ∈ utf8EncodeCharL c, b < 256 := by
  have hc := char_toNat_lt c
  intro b hb
  rw [utf8EncodeCharL] at hb
  by_cases h1 : c.toNat < 128
  · rw [if_pos h1] at hb
    simp only [List.mem_singleton] at hb
    omega
  · rw [if_neg h1] at hb
    by_cases h2 : c.toNat < 2048
    · rw [if_pos h2] at hb
      simp only [List.mem_cons, List.not_mem_nil, or_false] at hb
      rcases hb with rfl | rfl <;> omega
    · rw [if_neg h2] at hb
      by_cases h3 : c.toNat < 65536
      · rw [if_pos h3] at hb
        have d1 : c.toNat / 4096 < 16 := by omega
        have d2 : c.toNat / 64 % 64 < 64 := Nat.mod_lt _ (by omega)
        have d3 : c.toNat % 64 < 64 := Nat.mod_lt _ (by omega)
        simp only [List.mem_cons, List.not_mem_nil, or_false] at hb
        rcases hb with rfl | rfl | rfl <;> omega
      · rw [if_neg h3] at hb
        have d1 : c.toNat / 262144 < 5 := by omega
        have d2 : c.toNat / 4096 % 64 < 64 := Nat.mod_lt _ (by omega)
        have d3 : c.toNat / 64 % 64 < 64 := Nat.mod_lt _ (by omega)
        have d4 : c.toNat % 64 < 64 := Nat.mod_lt _ (by omega)
        simp only [List.mem_cons, List.not_mem_nil, or_false] at hb
        rcases hb with rfl | rfl | rfl | rfl <;> omega

theorem utf8Bytes_lt (s : String) : ∀ b ∈ utf8Bytes s, b < 256 := by
  intro b hb
  rw [utf8Bytes, List.mem_flatten] at hb
  obtain ⟨piece, hp, hbp⟩ := hb
  rw [List.mem_map] at hp
  obtain ⟨c, _, rfl⟩ := hp
  exact utf8EncodeCharL_lt c b hbp

theorem quotePlus_allowed (u : String) :
    ((quotePlus u).data.all allowedQueryChar) = true := by
  rw [quotePlus]
  rw [List.all_eq_true]
  intro c hc
  rw [List.mem_flatten] at hc
  obtain ⟨piece, hp, hcp⟩ := hc
  rw [List.mem_map] at hp
  obtain ⟨b, hb, rfl⟩ := hp
  have hb256 : b < 256 := utf8Bytes_lt u b hb
  have hall := quotePlusByte_allowed_range
  rw [List.all_eq_true] at hall
  have h2 := hall b (List.mem_range.mpr hb256)
  rw [List.all_eq_true] at h2
  exact h2 c hcp

/-- C6 counterexample: the claim says the catalog fetch URL is built with
both query parameters properly URL-encoded and not by hand-concatenating
unencoded strings. The MVC catalog fetch interpolates the raw username
straight into the query string: for the username `"a b"` it produces a
URL containing a bare space, different from the `urlencode`-built URL of
the GUI path. -/
theorem C6_url_encoding_cex :
    mvc_full_url "a b" =
      "https://portalapi.lcegateway.com/GetReportBlobs?userName=a b&fileName=all" ∧
    gui_full_url "a b" =
      "https://portalapi.lcegateway.com/GetReportBlobs?userName=a+b&fileName=all" ∧
    mvc_full_url "a b" ≠ gui_full_url "a b" := by
  refine ⟨rfl, ?_, by decide⟩
  decide

/-- C6 (amended): the GUI catalog fetch builds its URL with
`urlencode`, applying `quote_plus` to each parameter, and every character
of the encoded username is an unreserved character, `+`, or a percent
escape; the MVC catalog fetch instead interpolates the raw username
unencoded into the query string. In both paths the string handed to the
signer is the same string that is requested. -/
theorem C6_url_encoding (u : String) :
    gui_full_url u = REPORT_URL_BASE ++ "?" ++
      (quotePlus "userName" ++ "=" ++ quotePlus u ++ "&" ++
        (quotePlus "fileName" ++ "=" ++ quotePlus "all")) ∧
    ((quotePlus u).data.all allowedQueryChar) = true ∧
    mvc_full_url u = REPORT_URL_BASE ++ "?userName=" ++ u ++ "&fileName=" ++ "all" :=
  ⟨rfl, quotePlus_allowed u, rfl⟩

/-- C7 counterexample: the claim says a catalog body whose parse fails
makes the fetch fail with an error raised to the caller. In the MVC path
a failing outer parse is caught, the truncated body is printed, and
`download_reports` returns `None` — a normal return (an `.ok` value
carrying the printed snippet), not a raised error. -/
theorem C7_parse_failure_cex :
    mvc_download_reports 200 "rawbody" (Except.error "Expecting value")
        (fun _ => .ok Json.null) [] "t" netOk "base" [] =
      .ok (.parseFailure "rawbody", []) := rfl

/-- C7 (amended): when the outer parse fails, the inner parse fails, or
the final value is not a list, the GUI path raises the error to its
surrounding handler, while the MVC path prints the first 500 characters
of the raw body (parse failure) or the offending type (non-list) and
returns normally without downloading anything, leaving the disk
untouched; the failure is reported but not raised to the MVC caller. -/
theorem C7_parse_failure (status : Nat) (text : String)
    (outer : Except String Json) (inner : String → Except String Json)
    (root : List FSEntry) (today : String) (net : String → NetResult)
    (base : String) (disk : Disk) (startD endD : String) (hs : status < 400) :
    (∀ e, outer = .error e →
        mvc_download_reports status text outer inner root today net base disk =
          .ok (.parseFailure (strTake text 500), disk) ∧
        gui_load_reports status outer inner startD endD = .error e) ∧
    (∀ s m, outer = .ok (.str s) → inner s = .error m →
        mvc_download_reports status text outer inner root today net base disk =
          .ok (.parseFailure (strTake text 500), disk) ∧
        gui_load_reports status outer inner startD endD = .error m) ∧
    (∀ s v, outer = .ok (.str s) → inner s = .ok v → (∀ l, v ≠ .arr l) →
        mvc_download_reports status text outer inner root today net base disk =
          .ok (.notAList, disk) ∧
        gui_load_reports status outer inner startD endD =
          .error "Invalid response format") := by
  have hns : ¬ 400 ≤ status := by omega
  refine ⟨?_, ?_, ?_⟩
  · rintro e rfl
    constructor
    · unfold mvc_download_reports
      rw [if_neg hns]
    · unfold gui_load_reports gui_parse_catalog
      rw [if_neg hns]
  · rintro s m rfl hi
    constructor
    · unfold mvc_download_reports
      rw [if_neg hns]
      simp only [hi]
    · unfold gui_load_reports gui_parse_catalog
      rw [if_neg hns]
      simp only [hi]
  · rintro s v rfl hi hnarr
    constructor
    · unfold mvc_download_reports
      rw [if_neg hns]
      simp only [hi]
    · unfold gui_load_reports gui_parse_catalog
      rw [if_neg hns]
      simp only [hi]

/-- C7 witness: the amended theorem applied to a failing inner parse. -/
theorem C7_parse_failure_witness :
    (200 : Nat) < 400 ∧
    (mvc_download_reports 200 "rawtext" (.ok (.str "inner")) (fun _ => .error "bad")
        [] "t" netOk "base" [] = .ok (.parseFailure (strTake "rawtext" 500), []) ∧
      gui_load_reports 200 (.ok (.str "inner")) (fun _ => .error "bad")
        "2024-01-01" "2024-01-02" = .error "bad") :=
  ⟨by decide,
   (C7_parse_failure 200 "rawtext" (.ok (.str "inner")) (fun _ => .error "bad") [] "t" netOk
       "base" [] "2024-01-01" "2024-01-02" (by decide)).2.1 "inner" "bad" rfl rfl⟩

theorem mvc_process_entry_wf (prev : List String) (net : String → NetResult)
    (baseDir : String) (j : Json) (disk : Disk) (h : entryWF j = true) :
    ∃ d', mvc_process_entry prev net baseDir j disk =
      .ok (mvc_entry_class prev net j, d') := by
  cases j with
  | obj fs =>
      rw [entryWF, Bool.and_eq_true] at h
      rcases hn : Json.getField (Json.obj fs) "ReportName" with _ | vn
      · exact ⟨disk, by simp [mvc_process_entry, mvc_entry_class, entryMalformed, hn, pyFalsyJ]⟩
      · rw [hn] at h
        cases vn with
        | str n =>
            rcases hu : Json.getField (Json.obj fs) "ReportBlobUri" with _ | vu
            · exact ⟨disk, by
                simp [mvc_process_entry, mvc_entry_class, entryMalformed, hn, hu, pyFalsyJ]⟩
            · rw [hu] at h
              cases vu with
              | str u =>
                  by_cases hnu : ((n == "") || (u == "")) = true
                  · exact ⟨disk, by
                      simp only [mvc_process_entry, mvc_entry_class, entryMalformed,
                        hn, hu, pyFalsyJ, hnu, if_pos]⟩
                  · have hnu' : ((n == "") || (u == "")) = false := by
                      rw [← Bool.not_eq_true]; exact hnu
                    by_cases hc : prev.contains n = true
                    · have hmem : n ∈ prev := by simpa using hc
                      exact ⟨disk, by
                        simp [mvc_process_entry, mvc_entry_class, entryMalformed,
                          hn, hu, pyFalsyJ, hnu', hmem]⟩
                    · have hmem : n ∉ prev := by simpa using hc
                      cases hnet : net u with
                      | err m =>
                          exact ⟨disk, by
                            simp [mvc_process_entry, mvc_entry_class, entryMalformed,
                              hn, hu, pyFalsyJ, hnu', hmem, hnet]⟩
                      | resp status cl chunks =>
                          by_cases hst : 400 ≤ status
                          · exact ⟨disk, by
                              simp [mvc_process_entry, mvc_entry_class, entryMalformed,
                                hn, hu, pyFalsyJ, hnu', hmem, hnet, hst]⟩
                          · exact ⟨diskWrite (baseDir ++ "/" ++ n) chunks.flatten disk, by
                              simp [mvc_process_entry, mvc_entry_class, entryMalformed,
                                hn, hu, pyFalsyJ, hnu', hmem, hnet, hst]⟩
              | null => exact absurd h.2 (by simp)
              | bool b => exact absurd h.2 (by simp)
              | num k => exact absurd h.2 (by simp)
              | arr l => exact absurd h.2 (by simp)
              | obj l => exact absurd h.2 (by simp)
        | null => exact absurd h.1 (by simp)
        | bool b => exact absurd h.1 (by simp)
        | num k => exact absurd h.1 (by simp)
        | arr l => exact absurd h.1 (by simp)
        | obj l => exact absurd h.1 (by simp)
  | null => exact absurd h (by simp [entryWF])
  | bool b => exact absurd h (by simp [entryWF])
  | num k => exact absurd h (by simp [entryWF])
  | str s => exact absurd h (by simp [entryWF])
  | arr l => exact absurd h (by simp [entryWF])

theorem mvc_entry_class_blank_eq (prev : List String) (net : String → NetResult)
    (j : Json) (h : entryWF j = true) :
    (mvc_entry_class prev net j == MvcOutcomeE.skippedBlank) = entryMalformed j := by
  by_cases hm : entryMalformed j = true
  · simp [mvc_entry_class, hm]
  · have hm' : entryMalformed j = false := by rw [← Bool.not_eq_true]; exact hm
    rw [hm']
    cases j with
    | obj fs =>
        rw [entryWF, Bool.and_eq_true] at h
        rw [entryMalformed, Bool.or_eq_false_iff] at hm'
        rcases hn : Json.getField (Json.obj fs) "ReportName" with _ | vn
        · rw [hn] at hm'
          exact absurd hm'.1 (by simp [pyFalsyJ])
        · rw [hn] at h hm'
          cases vn with
          | str n =>
              rcases hu : Json.getField (Json.obj fs) "ReportBlobUri" with _ | vu
              · rw [hu] at hm'
                exact absurd hm'.2 (by simp [pyFalsyJ])
              · rw [hu] at h hm'
                cases vu with
                | str u =>
                    have hmal : entryMalformed (Json.obj fs) = false := by
                      rw [entryMalformed, hn, hu, Bool.or_eq_false_iff]
                      exact hm'
                    rw [mvc_entry_class, hmal]
                    simp only [Bool.false_eq_true, if_false, hn, hu]
                    by_cases hc : prev.contains n = true
                    · have hmem : n ∈ prev := by simpa using hc
                      simp [hmem]
                    · have hmem : n ∉ prev := by simpa using hc
                      cases hnet : net u with
                      | err m => simp [hmem, hnet]
                      | resp status cl chunks =>
                          by_cases hst : 400 ≤ status
                          · simp [hmem, hnet, hst]
                          · simp [hmem, hnet, hst]
                | null => exact absurd h.2 (by simp)
                | bool b => exact absurd h.2 (by simp)
                | num k => exact absurd h.2 (by simp)
                | arr l => exact absurd h.2 (by simp)
                | obj l => exact absurd h.2 (by simp)
          | null => exact absurd h.1 (by simp)
          | bool b => exact absurd h.1 (by simp)
          | num k => exact absurd h.1 (by simp)
          | arr l => exact absurd h.1 (by simp)
          | obj l => exact absurd h.1 (by simp)
    | null => exact absurd h (by simp [entryWF])
    | bool b => exact absurd h (by simp [entryWF])
    | num k => exact absurd h (by simp [entryWF])
    | str s => exact absurd h (by simp [entryWF])
    | arr l => exact absurd h (by simp [entryWF])

theorem mvc_loop_wf (prev : List String) (net : String → NetResult) (baseDir : String)
    (entries : List Json) :
    ∀ disk : Disk, entries.all entryWF = true →
      ∃ dfin, mvc_loop prev net baseDir disk entries =
        .ok ((entries.map (mvc_entry_class prev net)).count MvcOutcomeE.downloaded,
          (entries.map (mvc_entry_class prev net)).count MvcOutcomeE.skippedDedup,
          entries.map (mvc_entry_class prev net), dfin) := by
  induction entries with
  | nil => exact fun disk _ => ⟨disk, by simp [mvc_loop]⟩
  | cons j rest ih =>
      intro disk h
      rw [List.all_cons, Bool.and_eq_true] at h
      obtain ⟨d', hproc⟩ := mvc_process_entry_wf prev net baseDir j disk h.1
      obtain ⟨dfin, hrest⟩ := ih d' h.2
      refine ⟨dfin, ?_⟩
      show (match mvc_process_entry prev net baseDir j disk with
        | .error e => .error e
        | .ok (o, disk') =>
            match mvc_loop prev net baseDir disk' rest with
            | .error e => .error e
            | .ok (dls, skips, tr, dfin) =>
                match o with
                | .downloaded => .ok (dls + 1, skips, o :: tr, dfin)
                | .skippedDedup => .ok (dls, skips + 1, o :: tr, dfin)
                | _ => .ok (dls, skips, o :: tr, dfin) :
          Except String (Nat × Nat × List MvcOutcomeE × Disk)) = _
      rw [hproc]
      simp only []
      rw [hrest]
      rw [List.map_cons]
      cases hcls : mvc_entry_class prev net j with
      | downloaded => simp [List.count_cons]
      | skippedDedup => simp [List.count_cons]
      | skippedBlank => simp [List.count_cons]
      | failed m => simp [List.count_cons]

theorem mvc_trace_processed_count (prev : List String) (net : String → NetResult)
    (entries : List Json) (h : entries.all entryWF = true) :
    (entries.map (mvc_entry_class prev net)).countP
        (fun o => !(o == MvcOutcomeE.skippedBlank)) =
      entries.length - entries.countP entryMalformed := by
  rw [List.countP_map]
  have hcong : entries.countP
      ((fun o => !(o == MvcOutcomeE.skippedBlank)) ∘ mvc_entry_class prev net) =
      entries.countP (fun j => !(entryMalformed j)) := by
    apply List.countP_congr
    intro j hj
    rw [List.all_eq_true] at h
    have hwf := h j hj
    simp only [Function.comp_apply]
    rw [mvc_entry_class_blank_eq prev net j hwf]
  rw [hcong]
  have hlen := List.length_eq_countP_add_countP entryMalformed entries
  have h2 : entries.countP (fun a => decide ¬entryMalformed a = true) =
      entries.countP (fun j => !(entryMalformed j)) :=
    List.countP_congr (fun x _ => by simp)
  omega

/-- C8 counterexample: the claim says the resulting catalog count equals
total minus malformed. In the GUI path the date filter consults only the
report name, so an in-range entry missing `ReportBlobUri` is *retained*:
for a one-entry catalog whose only entry lacks the URI, `load_reports`
returns a catalog of size one, not zero. -/
theorem C8_malformed_entries_cex :
    gui_load_reports 200 (.ok (.str "body")) (fun _ => .ok (.arr [entryNoUri]))
        "2024-01-01" "2024-01-01" = .ok [entryNoUri] ∧
    Json.getField entryNoUri "ReportBlobUri" = none := ⟨rfl, rfl⟩

/-- C8 (amended): entries missing (or with empty) name or source URI are
tolerated without an error and without aborting: the MVC loop completes
normally with one outcome per entry, and the number of entries actually
processed (not skipped as blank) equals the total minus the malformed
ones. The GUI date-filtered catalog, however, consults only the name:
entries missing just the URI are retained in the catalog and only
skipped later, at download time. -/
theorem C8_malformed_entries (prev : List String) (net : String → NetResult)
    (baseDir : String) (disk : Disk) (entries : List Json)
    (h : entries.all entryWF = true) :
    (∃ dfin, mvc_loop prev net baseDir disk entries =
        .ok ((entries.map (mvc_entry_class prev net)).count MvcOutcomeE.downloaded,
          (entries.map (mvc_entry_class prev net)).count MvcOutcomeE.skippedDedup,
          entries.map (mvc_entry_class prev net), dfin)) ∧
    (entries.map (mvc_entry_class prev net)).length = entries.length ∧
    (entries.map (mvc_entry_class prev net)).countP
        (fun o => !(o == MvcOutcomeE.skippedBlank)) =
      entries.length - entries.countP entryMalformed ∧
    (∀ startD endD, filtered_reports startD endD entries =
      entries.filter (fun j =>
        in_range startD endD (extract_date_from_filename (reportNameD j)))) :=
  ⟨mvc_loop_wf prev net baseDir entries disk h, List.length_map entries _,
   mvc_trace_processed_count prev net entries h, fun _ _ => rfl⟩

/-- C8 witness: the amended theorem applied to a catalog with one
complete and one URI-less entry. -/
theorem C8_malformed_entries_witness :
    [entryA, entryNoUri].all entryWF = true ∧
    ((∃ dfin, mvc_loop [] netOk "base" [] [entryA, entryNoUri] =
        .ok (([entryA, entryNoUri].map (mvc_entry_class [] netOk)).count
            MvcOutcomeE.downloaded,
          ([entryA, entryNoUri].map (mvc_entry_class [] netOk)).count
            MvcOutcomeE.skippedDedup,
          [entryA, entryNoUri].map (mvc_entry_class [] netOk), dfin)) ∧
      ([entryA, entryNoUri].map (mvc_entry_class [] netOk)).length =
        [entryA, entryNoUri].length ∧
      ([entryA, entryNoUri].map (mvc_entry_class [] netOk)).countP
          (fun o => !(o == MvcOutcomeE.skippedBlank)) =
        [entryA, entryNoUri].length - [entryA, entryNoUri].countP entryMalformed ∧
      (∀ startD endD, filtered_reports startD endD [entryA, entryNoUri] =
        [entryA, entryNoUri].filter (fun j =>
          in_range startD endD (extract_date_from_filename (reportNameD j))))) :=
  ⟨by decide, C8_malformed_entries [] netOk "base" [] [entryA, entryNoUri] (by decide)⟩

theorem progressGo_zero (cs : List (List Nat)) :
    ∀ d, progressGo 0 d cs = [] := by
  induction cs with
  | nil => intro d; rfl
  | cons c cs ih =>
      intro d
      rw [progressGo]
      by_cases hc : c.isEmpty
      · rw [if_pos hc]; exact ih d
      · rw [if_neg hc]
        dsimp only
        rw [if_neg (by omega)]
        exact ih _

theorem progressGo_all_empty (total : Nat) (cs : List (List Nat))
    (h : ∀ c ∈ cs, c = []) : ∀ d, progressGo total d cs = [] := by
  induction cs with
  | nil => intro d; rfl
  | cons c cs ih =>
      intro d
      rw [progressGo]
      have hc : c.isEmpty = true := List.isEmpty_iff.mpr (h c (List.mem_cons_self _ _))
      rw [if_pos hc]
      exact ih (fun c' hc' => h c' (List.mem_cons_of_mem _ hc')) d

theorem flatten_nil_of_all_empty (cs : List (List Nat)) (h : ∀ c ∈ cs, c = []) :
    cs.flatten = [] := by
  induction cs with
  | nil => rfl
  | cons c cs ih =>
      rw [List.flatten_cons, h c (List.mem_cons_self _ _), List.nil_append]
      exact ih (fun c' hc' => h c' (List.mem_cons_of_mem _ hc'))

theorem progressGo_chain (total : Nat) (cs : List (List Nat)) :
    ∀ d, List.Chain' (· ≤ ·) (progressGo total d cs) ∧
      ∀ x ∈ progressGo total d cs, d * 100 / total ≤ x := by
  induction cs with
  | nil =>
      intro d
      exact ⟨List.chain'_nil, fun x hx => absurd hx (List.not_mem_nil x)⟩
  | cons c cs ih =>
      intro d
      rw [progressGo]
      by_cases hc : c.isEmpty
      · rw [if_pos hc]; exact ih d
      · rw [if_neg hc]
        dsimp only
        by_cases ht : 0 < total
        · rw [if_pos ht]
          have hmono : d * 100 / total ≤ (d + c.length) * 100 / total :=
            Nat.div_le_div_right (Nat.mul_le_mul_right 100 (Nat.le_add_right d c.length))
          constructor
          · rw [List.chain'_cons']
            refine ⟨?_, (ih (d + c.length)).1⟩
            intro y hy
            exact le_trans (Nat.le_refl _)
              ((ih (d + c.length)).2 y (List.mem_of_mem_head? hy))
          · intro x hx
            rcases List.mem_cons.mp hx with rfl | hx
            · exact hmono
            · exact le_trans hmono ((ih (d + c.length)).2 x hx)
        · rw [if_neg ht]
          have htz : total = 0 := by omega
          subst htz
          refine ⟨(ih (d + c.length)).1, fun x hx => ?_⟩
          simp

theorem progressGo_getLast (total : Nat) (ht : 0 < total) (cs : List (List Nat)) :
    ∀ d, (∃ c ∈ cs, c ≠ []) →
      (progressGo total d cs).getLast? =
        some ((d + cs.flatten.length) * 100 / total) := by
  induction cs with
  | nil =>
      rintro d ⟨c, hc, _⟩
      cases hc
  | cons c cs ih =>
      rintro d ⟨c0, hc0, hne⟩
      rw [progressGo]
      by_cases hc : c.isEmpty
      · rw [if_pos hc]
        have hcnil : c = [] := List.isEmpty_iff.mp hc
        have hex : ∃ c' ∈ cs, c' ≠ [] := by
          rcases List.mem_cons.mp hc0 with rfl | h
          · exact absurd hcnil hne
          · exact ⟨c0, h, hne⟩
        rw [ih d hex, List.flatten_cons, hcnil, List.nil_append]
      · rw [if_neg hc]
        dsimp only
        rw [if_pos ht, List.getLast?_cons]
        by_cases hex : ∃ c' ∈ cs, c' ≠ []
        · rw [ih (d + c.length) hex]
          simp only [Option.getD_some]
          rw [List.flatten_cons, List.length_append]
          have harith : d + c.length + cs.flatten.length =
              d + (c.length + cs.flatten.length) := by omega
          rw [harith]
        · push_neg at hex
          have hallnil : ∀ c' ∈ cs, c' = [] := hex
          rw [progressGo_all_empty total cs hallnil]
          rw [List.flatten_cons, List.length_append,
            flatten_nil_of_all_empty cs hallnil]
          simp

/-- C9: for a download whose response declares a known positive content
length that equals the number of bytes delivered over the chunks, the
successive `on_progress` values are non-decreasing and the final value is
exactly 100; when the declared content length is zero or absent, the
callback is invoked exactly once, with 100, after the stream ends. -/
theorem C9_progress (total : Nat) (chunks : List (List Nat)) :
    (0 < total → chunks.flatten.length = total →
      List.Chain' (· ≤ ·) (progressList total chunks) ∧
        (progressList total chunks).getLast? = some 100) ∧
    (total = 0 → progressList total chunks = [100]) := by
  constructor
  · intro ht hlen
    have htz : ¬ total = 0 := by omega
    rw [progressList, if_neg htz, List.append_nil]
    constructor
    · exact (progressGo_chain total chunks 0).1
    · have hex : ∃ c ∈ chunks, c ≠ [] := by
        by_contra hno
        push_neg at hno
        rw [flatten_nil_of_all_empty chunks hno] at hlen
        simp at hlen
        omega
      rw [progressGo_getLast total ht chunks 0 hex, Nat.zero_add, hlen,
        Nat.mul_div_cancel_left 100 ht]
  · intro htz
    subst htz
    rw [progressList, progressGo_zero chunks 0]
    rfl

/-- C9 witness: the theorem applied to a two-chunk download of known
total size, and to an unknown-length download. -/
theorem C9_progress_witness :
    0 < 4 ∧ [[1, 2], [3, 4]].flatten.length = 4 ∧
    (List.Chain' (· ≤ ·) (progressList 4 [[1, 2], [3, 4]]) ∧
      (progressList 4 [[1, 2], [3, 4]]).getLast? = some 100) ∧
    progressList 0 [[1, 2], [3, 4]] = [100] :=
  ⟨by decide, by decide,
   (C9_progress 4 [[1, 2], [3, 4]]).1 (by decide) (by decide),
   (C9_progress 0 [[1, 2], [3, 4]]).2 rfl⟩

/-- C10: in the MVC batch path, a processed entry's destination file is
created only when the GET returned the entire body with a success
status: if `requests.get` raises, or the status triggers
`raise_for_status`, the entry is recorded as failed and the disk is
unchanged at that entry's path (no partial file); on success the file is
written with the complete body in one step. -/
theorem C10_no_partial_file (prev : List String) (net : String → NetResult)
    (baseDir : String) (disk : Disk) (j : Json) (n u : String)
    (hn : j.getField "ReportName" = some (.str n))
    (hu : j.getField "ReportBlobUri" = some (.str u))
    (hne : n ≠ "") (hue : u ≠ "") (hprev : prev.contains n = false) :
    (∀ m, net u = .err m →
        mvc_process_entry prev net baseDir j disk = .ok (.failed m, disk)) ∧
    (∀ status cl chunks, net u = .resp status cl chunks → 400 ≤ status →
        mvc_process_entry prev net baseDir j disk = .ok (.failed "HTTPError", disk)) ∧
    (∀ status cl chunks, net u = .resp status cl chunks → status < 400 →
        mvc_process_entry prev net baseDir j disk =
          .ok (.downloaded, diskWrite (baseDir ++ "/" ++ n) chunks.flatten disk)) := by
  have hn' : (n == "") = false := beq_eq_false_iff_ne.mpr hne
  have hu' : (u == "") = false := beq_eq_false_iff_ne.mpr hue
  cases j with
  | obj fs =>
      have hmem : n ∉ prev := by simpa using hprev
      refine ⟨?_, ?_, ?_⟩
      · intro m hnet
        simp [mvc_process_entry, hn, hu, pyFalsyJ, hn', hu', hmem, hnet]
      · intro status cl chunks hnet hst
        simp [mvc_process_entry, hn, hu, pyFalsyJ, hn', hu', hmem, hnet, hst]
      · intro status cl chunks hnet hst
        have hst' : ¬ 400 ≤ status := by omega
        simp [mvc_process_entry, hn, hu, pyFalsyJ, hn', hu', hmem, hnet, hst']
  | null => exact absurd hn (by simp [Json.getField])
  | bool b => exact absurd hn (by simp [Json.getField])
  | num k => exact absurd hn (by simp [Json.getField])
  | str s => exact absurd hn (by simp [Json.getField])
  | arr l => exact absurd hn (by simp [Json.getField])

/-- C10 witness: the theorem applied to a concrete entry against the
fixture network, exercising both the unreachable and the successful
branch. -/
theorem C10_no_partial_file_witness :
    entryB.getField "ReportName" = some (.str "b_2024-01-02.csv") ∧
    entryB.getField "ReportBlobUri" = some (.str "http://b") ∧
    "b_2024-01-02.csv" ≠ "" ∧ "http://b" ≠ "" ∧
    ([] : List String).contains "b_2024-01-02.csv" = false ∧
    (mvc_process_entry [] net3 "base" entryB [] = .ok (.failed "boom", []) ∧
      mvc_process_entry [] netOk "base" entryA [] =
        .ok (.downloaded, diskWrite ("base" ++ "/" ++ "a_2024-01-01.csv") [[104]].flatten [])) :=
  ⟨rfl, rfl, by decide, by decide, rfl,
   (C10_no_partial_file [] net3 "base" [] entryB "b_2024-01-02.csv" "http://b"
       rfl rfl (by decide) (by decide) rfl).1 "boom" rfl,
   (C10_no_partial_file [] netOk "base" [] entryA "a_2024-01-01.csv" "http://a"
       rfl rfl (by decide) (by decide) rfl).2.2 200 1 [[104]] rfl (by decide)⟩

end LCReport
